import Mathlib

/-
Verification of the libbitcoin-database write-path coordinator (`data_base.cpp`)
and the memory accessor (`memory/accessor.cpp`) against their specification.

The coordinator `data_base` is embedded shallowly: each C++ method becomes a Lean
function over an explicit `DataBase` state, returning the error code, the new
state, the post-values of any out-parameters, and a trace of the leaf-store and
write-protocol events it performed, in program order.  The leaf stores
(`block_database`, `transaction_database`) and the `verify` helpers are not part
of the two source files, so they are modelled from the specification's leaf-store
contracts (spec section 6) and precondition descriptions (spec sections 4.3-4.6).
-/

namespace Bitcoin

/-- Error codes surfaced by the store (the libbitcoin `error` values that appear
in `data_base.cpp` and in the specification's error-code list). -/
inductive Code where
  | success
  | store_lock_failure
  | operation_failed
  | duplicate_transaction
  | not_found
  | invalid_fork_point
  | store_block_invalid_height
  | store_block_missing_parent
  deriving DecidableEq, Repr

/-- An 80-byte chain header, abstracted to its identifying hash and its
previous-block hash. -/
structure Header where
  hhash : Nat
  prev : Nat
  deriving DecidableEq, Repr

/-- A header together with its in-memory metadata (`header.metadata` in the
source: `exists`, `error`, `validated`, `median_time_past`). -/
structure HeaderM where
  hdr : Header
  existsFlag : Bool
  errorCode : Code
  validated : Bool
  mtp : Nat
  deriving DecidableEq, Repr

/-- A transaction with its metadata (`tx.metadata.link`, `tx.metadata.existed`). -/
structure Tx where
  thash : Nat
  link : Nat
  existed : Bool
  deriving DecidableEq, Repr

/-- A block: a header plus its ordered transactions. -/
structure Block where
  header : HeaderM
  txs : List Tx
  deriving DecidableEq, Repr

/-- A `(height, hash)` fork point (`config::checkpoint`). -/
structure Checkpoint where
  cheight : Nat
  chash : Nat
  deriving DecidableEq, Repr

/-- Association-list lookup keyed by `Nat` (first match wins). -/
def alookup (k : Nat) : List (Nat × α) → Option α
  | [] => none
  | p :: t => if p.1 = k then some p.2 else alookup k t

/-- Association-list in-place update at key `k`, leaving other entries as-is. -/
def aupdate (k : Nat) (f : α → α) : List (Nat × α) → List (Nat × α)
  | [] => []
  | p :: t => (if p.1 = k then (p.1, f p.2) else p) :: aupdate k f t

/-- Modelled from the spec: a BlockStore record for one header — the header, its
height and median time past, the transaction-link association array, and the
recorded validation verdict. -/
structure BlockRecord where
  header : Header
  height : Nat
  mtp : Nat
  txLinks : List Nat
  validated : Bool
  errorCode : Code
  deriving DecidableEq, Repr

/-- Modelled from the spec: the BlockStore — header records keyed by hash plus
the two height-indexed chains (list position is the height). -/
structure BlockStore where
  table : List (Nat × BlockRecord)
  cand : List Nat
  conf : List Nat
  deriving DecidableEq, Repr

/-- A freshly stored header record: no tx associations, no verdict yet. -/
def mkRecord (h : Header) (height mtp : Nat) : BlockRecord :=
  ⟨h, height, mtp, [], false, Code.success⟩

/-- Modelled from the spec: `blocks.store(header, height, mtp)` records the
header (overwriting any record under the same hash). -/
def BlockStore.store (bs : BlockStore) (h : Header) (height mtp : Nat) : BlockStore :=
  if (alookup h.hhash bs.table).isSome then
    {bs with table := aupdate h.hhash (fun _ => mkRecord h height mtp) bs.table}
  else
    {bs with table := bs.table ++ [(h.hhash, mkRecord h height mtp)]}

/-- Modelled from the spec: `blocks.index(hash, height, candidate)` appends the
hash to the selected height index; it fails unless `height` is the next height
of that index. -/
def BlockStore.index (bs : BlockStore) (hash height : Nat) (candidate : Bool) :
    Option BlockStore :=
  if candidate then
    if bs.cand.length = height then some {bs with cand := bs.cand ++ [hash]} else none
  else
    if bs.conf.length = height then some {bs with conf := bs.conf ++ [hash]} else none

/-- Modelled from the spec: `blocks.unindex(hash, height, candidate)` removes the
top entry of the selected index; it fails unless that top entry is at `height`
and carries `hash`. -/
def BlockStore.unindex (bs : BlockStore) (hash height : Nat) (candidate : Bool) :
    Option BlockStore :=
  if candidate then
    if bs.cand.length = height + 1 ∧ bs.cand[height]? = some hash then
      some {bs with cand := bs.cand.dropLast}
    else none
  else
    if bs.conf.length = height + 1 ∧ bs.conf[height]? = some hash then
      some {bs with conf := bs.conf.dropLast}
    else none

/-- Modelled from the spec: `blocks.validate(hash, code)` records the validation
verdict on the header record. -/
def BlockStore.validate (bs : BlockStore) (hash : Nat) (c : Code) : Option BlockStore :=
  if (alookup hash bs.table).isSome then
    let t := aupdate hash (fun r => {r with errorCode := c, validated := true}) bs.table
    some {bs with table := t}
  else none

/-- Modelled from the spec: `blocks.update(block)` binds the header record to the
block's transaction links. -/
def BlockStore.update (bs : BlockStore) (b : Block) : Option BlockStore :=
  if (alookup b.header.hdr.hhash bs.table).isSome then
    let t := aupdate b.header.hdr.hhash
      (fun r => {r with txLinks := b.txs.map Tx.link}) bs.table
    some {bs with table := t}
  else none

/-- Modelled from the spec: `blocks.top(out, candidate)` — the top height of the
selected index, when the index is non-empty. -/
def BlockStore.topIdx (bs : BlockStore) (candidate : Bool) : Option Nat :=
  let l := if candidate then bs.cand else bs.conf
  if l.length = 0 then none else some (l.length - 1)

/-- Modelled from the spec: `blocks.get(height, candidate)` — the record of the
header indexed at a height. -/
def BlockStore.getAt (bs : BlockStore) (height : Nat) (candidate : Bool) :
    Option BlockRecord :=
  match (if candidate then bs.cand else bs.conf)[height]? with
  | none => none
  | some h => alookup h bs.table

/-- Modelled from the spec: a TransactionStore record — the tx hash, the
confirmation tuple `(height, mtp, position)` and the candidate mark. -/
structure TxRecord where
  thash : Nat
  confirmHeight : Option Nat
  confirmMtp : Nat
  position : Nat
  candidateMark : Bool
  deriving DecidableEq, Repr

/-- Modelled from the spec: the TransactionStore — records keyed by link, plus
the next fresh link. -/
structure TxStore where
  table : List (Nat × TxRecord)
  nextLink : Nat
  deriving DecidableEq, Repr

/-- Find the link of a stored transaction by its hash. -/
def TxStore.findLink (ts : TxStore) (h : Nat) : Option Nat :=
  (ts.table.find? (fun p => p.2.thash == h)).map Prod.fst

/-- Modelled from the spec: `transactions.store(tx)` — store if missing and
always set the tx's link metadata (and `existed`). -/
def TxStore.storeOne (ts : TxStore) (tx : Tx) : TxStore × Tx :=
  match ts.findLink tx.thash with
  | some l => (ts, {tx with link := l, existed := true})
  | none =>
      (⟨ts.table ++ [(ts.nextLink, ⟨tx.thash, none, 0, 0, false⟩)], ts.nextLink + 1⟩,
       {tx with link := ts.nextLink, existed := false})

/-- Modelled from the spec: `transactions.store(tx_list)` over a list, in order. -/
def TxStore.storeList (ts : TxStore) : List Tx → TxStore × List Tx
  | [] => (ts, [])
  | tx :: rest =>
      let r1 := ts.storeOne tx
      let r2 := r1.1.storeList rest
      (r2.1, r1.2 :: r2.2)

/-- Modelled from the spec: `transactions.confirm(link, height, mtp, position)`
sets the confirmation tuple; fails when the link is unknown. -/
def TxStore.confirm (ts : TxStore) (l height mtp pos : Nat) : Option TxStore :=
  if (alookup l ts.table).isSome then
    let t := aupdate l
      (fun r => {r with confirmHeight := some height, confirmMtp := mtp, position := pos})
      ts.table
    some {ts with table := t}
  else none

/-- Modelled from the spec: `transactions.confirm(tx_list, height, mtp)` assigns
positions in on-wire order; a mid-list failure keeps the earlier confirmations. -/
def TxStore.confirmList (ts : TxStore) (height mtp : Nat) :
    List Tx → Nat → TxStore × Bool
  | [], _ => (ts, true)
  | tx :: rest, pos =>
      match ts.confirm tx.link height mtp pos with
      | none => (ts, false)
      | some ts1 => ts1.confirmList height mtp rest (pos + 1)

/-- Modelled from the spec: `transactions.unconfirm(link)` clears the
confirmation tuple; fails when the link is unknown. -/
def TxStore.unconfirm (ts : TxStore) (l : Nat) : Option TxStore :=
  if (alookup l ts.table).isSome then
    some {ts with table := aupdate l (fun r => {r with confirmHeight := none}) ts.table}
  else none

/-- Modelled from the spec: `transactions.uncandidate(link)` clears the candidate
mark; fails when the link is unknown. -/
def TxStore.uncandidate (ts : TxStore) (l : Nat) : Option TxStore :=
  if (alookup l ts.table).isSome then
    some {ts with table := aupdate l (fun r => {r with candidateMark := false}) ts.table}
  else none

/-- Observable leaf-store and write-protocol events, in program order. -/
inductive Ev where
  | beginWrite | endWrite | commit
  | bStore | bUpdate | bValidate
  | bIndex (candidate : Bool) | bUnindex (candidate : Bool)
  | tStore | tConfirm | tUnconfirm | tUncandidate
  | setClosed | bClose | tClose | aClose | storeClose
  | bOpen | tOpen | aOpen
  deriving DecidableEq, Repr

/-- Environment faults injectable into a write transaction: failure of
`begin_write`, of `end_write`, of the first `transactions.unconfirm` call, and of
`blocks.unindex`. -/
structure Faults where
  beginWriteFail : Bool
  endWriteFail : Bool
  unconfirmFail : Bool
  unindexFail : Bool
  deriving DecidableEq, Repr

/-- The fault-free environment. -/
def noFaults : Faults := ⟨false, false, false, false⟩

/-- The data_base coordinator state: the two leaf stores the claims concern,
plus the closed flag and the address-indexing setting. -/
structure DataBase where
  blocks : BlockStore
  txs : TxStore
  closed : Bool
  indexAddresses : Bool
  deriving DecidableEq, Repr

/-- Events of `end_write` on a failure path: the sentinel is only cleared when
`end_write` itself succeeds. -/
def endW (f : Faults) : List Ev := if f.endWriteFail then [] else [Ev.endWrite]

/-- Iterated `transactions.uncandidate` over an association array, stopping at
the first failure and keeping the earlier mutations. -/
def TxStore.uncandidateAll (ts : TxStore) : List Nat → TxStore × Bool × List Ev
  | [] => (ts, true, [])
  | l :: rest =>
      match ts.uncandidate l with
      | none => (ts, false, [])
      | some ts1 =>
          let r := ts1.uncandidateAll rest
          (r.1, r.2.1, Ev.tUncandidate :: r.2.2)

/-- Iterated `transactions.unconfirm` over an association array, with an
injectable failure of the first call; a mid-list failure keeps the earlier
mutations. -/
def TxStore.unconfirmAll (failFirst : Bool) (ts : TxStore) :
    List Nat → TxStore × Bool × List Ev
  | [] => (ts, true, [])
  | l :: rest =>
      if failFirst then (ts, false, [])
      else
        match ts.unconfirm l with
        | none => (ts, false, [])
        | some ts1 =>
            let r := ts1.unconfirmAll false rest
            (r.1, r.2.1, Ev.tUnconfirm :: r.2.2)

/-- The transactions hydrated from a record's link array
(`data_base::to_transactions`): each link resolves to its stored tx hash. -/
def TxStore.toTxs (ts : TxStore) (links : List Nat) : List Tx :=
  links.map (fun l => ⟨((alookup l ts.table).map TxRecord.thash).getD 0, l, true⟩)

/-- The header-with-metadata view a fetched record presents. -/
def recordHeaderM (r : BlockRecord) : HeaderM :=
  ⟨r.header, true, r.errorCode, r.validated, r.mtp⟩

/-- The block that `pop_block` assigns to its out parameter from a fetched
record: the stored header plus the hydrated transactions. -/
def blockOf (db : DataBase) (r : BlockRecord) : Block :=
  ⟨recordHeaderM r, db.txs.toTxs r.txLinks⟩

/-- max_size_t: the largest value of the 64-bit size type. -/
def maxSizeT : Nat := 2 ^ 64 - 1

/-- Modelled from the spec: `verify_top(store, height, candidate)` — succeeds
exactly when the selected index top equals `height`. -/
def verify_top (bs : BlockStore) (height : Nat) (candidate : Bool) : Code :=
  match bs.topIdx candidate with
  | some t => if t = height then Code.success else Code.store_block_invalid_height
  | none => Code.store_block_invalid_height

/-- Modelled from the spec: `verify(store, fork_point, candidate)` — the fork
point must name the header indexed at its height; otherwise
`invalid_fork_point` (in particular when the fork height exceeds the top). -/
def verify_fork (bs : BlockStore) (fork : Checkpoint) (candidate : Bool) : Code :=
  match bs.getAt fork.cheight candidate with
  | some r => if r.header.hhash = fork.chash then Code.success else Code.invalid_fork_point
  | none => Code.invalid_fork_point

/-- Modelled from the spec: `verify_push(store, header, height)` — `height` is
the next candidate height and the header links to the current candidate top. -/
def verify_push_header (bs : BlockStore) (h : HeaderM) (height : Nat) : Code :=
  if bs.cand.length ≠ height then Code.store_block_invalid_height
  else if height = 0 then Code.success
  else if bs.cand[height - 1]? = some h.hdr.prev then Code.success
  else Code.store_block_missing_parent

/-- Modelled from the spec: `verify_exists(store, header)` — the header is
recorded in the BlockStore. -/
def verify_exists_header (bs : BlockStore) (h : Header) : Code :=
  if (alookup h.hhash bs.table).isSome then Code.success else Code.not_found

/-- Modelled from the spec: `verify_push(store, block, height)` — the block's
header is the candidate at `height` and the confirmed top is `height - 1`. -/
def verify_push_block (bs : BlockStore) (b : Block) (height : Nat) : Code :=
  if bs.cand[height]? = some b.header.hdr.hhash ∧ bs.conf.length = height then Code.success
  else Code.store_block_invalid_height

/-- data_base::push (src/src/data_base.cpp lines 708-823): store the header,
candidate-index it, store the txs, bind the tx links, confirm the txs, mark
valid, confirmed-index it, commit.  Any step failure after `begin_write` calls
`end_write` and returns `operation_failed` without reverting prior steps. -/
def DataBase.push (f : Faults) (db : DataBase) (b : Block) (height mtp : Nat) :
    Code × DataBase × List Ev :=
  if f.beginWriteFail then (Code.store_lock_failure, db, []) else
  let bs1 := db.blocks.store b.header.hdr height mtp
  match bs1.index b.header.hdr.hhash height true with
  | none => (Code.operation_failed, {db with blocks := bs1},
      [Ev.beginWrite, Ev.bStore] ++ endW f)
  | some bs2 =>
    let r1 := db.txs.storeList b.txs
    let b1 : Block := {b with txs := r1.2}
    match bs2.update b1 with
    | none => (Code.operation_failed, {db with blocks := bs2, txs := r1.1},
        [Ev.beginWrite, Ev.bStore, Ev.bIndex true, Ev.tStore] ++ endW f)
    | some bs3 =>
      let r2 := r1.1.confirmList height mtp b1.txs 0
      if !r2.2 then (Code.operation_failed, {db with blocks := bs3, txs := r2.1},
          [Ev.beginWrite, Ev.bStore, Ev.bIndex true, Ev.tStore, Ev.bUpdate] ++ endW f)
      else
        match bs3.validate b.header.hdr.hhash Code.success with
        | none => (Code.operation_failed, {db with blocks := bs3, txs := r2.1},
            [Ev.beginWrite, Ev.bStore, Ev.bIndex true, Ev.tStore, Ev.bUpdate,
             Ev.tConfirm] ++ endW f)
        | some bs4 =>
          match bs4.index b.header.hdr.hhash height false with
          | none => (Code.operation_failed, {db with blocks := bs4, txs := r2.1},
              [Ev.beginWrite, Ev.bStore, Ev.bIndex true, Ev.tStore, Ev.bUpdate,
               Ev.tConfirm, Ev.bValidate] ++ endW f)
          | some bs5 =>
            let db7 : DataBase := {db with blocks := bs5, txs := r2.1}
            if f.endWriteFail then
              (Code.store_lock_failure, db7,
               [Ev.beginWrite, Ev.bStore, Ev.bIndex true, Ev.tStore, Ev.bUpdate,
                Ev.tConfirm, Ev.bValidate, Ev.bIndex false, Ev.commit])
            else
              (Code.success, db7,
               [Ev.beginWrite, Ev.bStore, Ev.bIndex true, Ev.tStore, Ev.bUpdate,
                Ev.tConfirm, Ev.bValidate, Ev.bIndex false, Ev.commit, Ev.endWrite])

/-- data_base::push_header (src lines 890-939): verify_push, store when
`!metadata.exists`, candidate-index (both leaf return values are ignored by the
source), commit. -/
def DataBase.push_header (f : Faults) (db : DataBase) (h : HeaderM) (height mtp : Nat) :
    Code × DataBase × List Ev :=
  let ec := verify_push_header db.blocks h height
  if ec ≠ Code.success then (ec, db, []) else
  if f.beginWriteFail then (Code.store_lock_failure, db, []) else
  let bs1 := if h.existsFlag then db.blocks else db.blocks.store h.hdr height mtp
  let bs2 := (bs1.index h.hdr.hhash height true).getD bs1
  let tr := [Ev.beginWrite] ++ (if h.existsFlag then [] else [Ev.bStore])
      ++ [Ev.bIndex true, Ev.commit]
  if f.endWriteFail then (Code.store_lock_failure, {db with blocks := bs2}, tr)
  else (Code.success, {db with blocks := bs2}, tr ++ [Ev.endWrite])

/-- data_base::pop_header (src lines 942-1019).  The precondition check in the
source reads `if ((verify_top(...))) return ec;` with `ec` still
default-constructed, so a failed precondition returns `error::success` without
mutating anything or assigning the out parameter. -/
def DataBase.pop_header (f : Faults) (db : DataBase) (height : Nat) :
    Code × DataBase × Option Header × List Ev :=
  if verify_top db.blocks height true ≠ Code.success then (Code.success, db, none, []) else
  match db.blocks.getAt height true with
  | none => (Code.operation_failed, db, none, [])
  | some result =>
    if f.beginWriteFail then (Code.store_lock_failure, db, none, []) else
    let r1 := db.txs.uncandidateAll result.txLinks
    if !r1.2.1 then (Code.operation_failed, {db with txs := r1.1}, none,
        [Ev.beginWrite] ++ r1.2.2 ++ endW f) else
    if f.unindexFail then (Code.operation_failed, {db with txs := r1.1}, none,
        [Ev.beginWrite] ++ r1.2.2 ++ endW f) else
    match db.blocks.unindex result.header.hhash height true with
    | none => (Code.operation_failed, {db with txs := r1.1}, none,
        [Ev.beginWrite] ++ r1.2.2 ++ endW f)
    | some bs1 =>
      let db2 : DataBase := {db with txs := r1.1, blocks := bs1}
      let tr := [Ev.beginWrite] ++ r1.2.2 ++ [Ev.bUnindex true, Ev.commit]
      if f.endWriteFail then (Code.store_lock_failure, db2, some result.header, tr)
      else (Code.success, db2, some result.header, tr ++ [Ev.endWrite])

/-- The default-constructed `message::header` the pop_above loop allocates for
each iteration's out parameter. -/
def defaultHeaderV : Header := ⟨0, 0⟩

/-- The pop loop of data_base::pop_above for headers: pop heights from
`fork + d` down to `fork + 1`, prepending each popped header (so the outgoing
list ends up in ascending height order). -/
def DataBase.popHs (f : Faults) (db : DataBase) (fork : Nat) :
    Nat → Bool × DataBase × List Header × List Ev
  | 0 => (true, db, [], [])
  | d + 1 =>
    let res := DataBase.pop_header f db (fork + d + 1)
    let hdr := res.2.2.1.getD defaultHeaderV
    if res.1 ≠ Code.success then (false, res.2.1, [], res.2.2.2)
    else
      let rest := DataBase.popHs f res.2.1 fork d
      (rest.1, rest.2.1, rest.2.2.1 ++ [hdr], res.2.2.2 ++ rest.2.2.2)

/-- data_base::pop_above for headers (src lines 852-886): clear the out list,
verify the fork point, read the candidate top, pop everything above the fork.
The verify error code is collapsed into the boolean result. -/
def DataBase.pop_above_h (f : Faults) (db : DataBase) (fork : Checkpoint) :
    Bool × DataBase × List Header × List Ev :=
  if verify_fork db.blocks fork true ≠ Code.success then (false, db, [], []) else
  match db.blocks.topIdx true with
  | none => (false, db, [], [])
  | some top =>
    if top - fork.cheight = 0 then (true, db, [], [])
    else DataBase.popHs f db fork.cheight (top - fork.cheight)

/-- data_base::push_all for headers (src lines 829-850): push each incoming
header at `fork + 1 + index` with its metadata median time past. -/
def DataBase.push_all_h (f : Faults) (db : DataBase) (fork : Nat) :
    List HeaderM → Nat → Bool × DataBase × List Ev
  | [], _ => (true, db, [])
  | h :: rest, offset =>
    let res := DataBase.push_header f db h (fork + 1 + offset) h.mtp
    if res.1 ≠ Code.success then (false, res.2.1, res.2.2)
    else
      let r2 := DataBase.push_all_h f res.2.1 fork rest (offset + 1)
      (r2.1, r2.2.1, res.2.2 ++ r2.2.2)

/-- The body of data_base::reorganize for headers after the overflow guard:
`pop_above(outgoing, fork) && push_all(incoming, fork)`, collapsed to
success/operation_failed. -/
def DataBase.reorgBodyH (f : Faults) (db : DataBase) (fork : Checkpoint)
    (incoming : List HeaderM) : Code × DataBase × Option (List Header) × List Ev :=
  let pa := DataBase.pop_above_h f db fork
  if !pa.1 then (Code.operation_failed, pa.2.1, some pa.2.2.1, pa.2.2.2)
  else
    let ps := DataBase.push_all_h f pa.2.1 fork.cheight incoming 0
    ((if ps.1 then Code.success else Code.operation_failed), ps.2.1, some pa.2.2.1,
     pa.2.2.2 ++ ps.2.2)

/-- data_base::reorganize for headers (src lines 447-465): the overflow guard
`fork_point.height() > max_size_t - incoming->size()` returns operation_failed
before anything runs; otherwise pop_above then push_all. -/
def DataBase.reorganize_h (f : Faults) (db : DataBase) (fork : Checkpoint)
    (incoming : List HeaderM) : Code × DataBase × Option (List Header) × List Ev :=
  if fork.cheight > maxSizeT - incoming.length then (Code.operation_failed, db, none, [])
  else DataBase.reorgBodyH f db fork incoming

/-- data_base::push_block (src lines 1083-1156): verify_push, confirm each tx
with its position, confirmed-index the block, commit. -/
def DataBase.push_block (f : Faults) (db : DataBase) (b : Block) (height : Nat) :
    Code × DataBase × List Ev :=
  let ec := verify_push_block db.blocks b height
  if ec ≠ Code.success then (ec, db, []) else
  if f.beginWriteFail then (Code.store_lock_failure, db, []) else
  let r1 := db.txs.confirmList height b.header.mtp b.txs 0
  if !r1.2 then (Code.operation_failed, {db with txs := r1.1},
      [Ev.beginWrite] ++ endW f) else
  match db.blocks.index b.header.hdr.hhash height false with
  | none => (Code.operation_failed, {db with txs := r1.1},
      [Ev.beginWrite, Ev.tConfirm] ++ endW f)
  | some bs1 =>
    let db2 : DataBase := {db with txs := r1.1, blocks := bs1}
    if f.endWriteFail then
      (Code.store_lock_failure, db2, [Ev.beginWrite, Ev.tConfirm, Ev.bIndex false, Ev.commit])
    else
      (Code.success, db2,
       [Ev.beginWrite, Ev.tConfirm, Ev.bIndex false, Ev.commit, Ev.endWrite])

/-- data_base::pop_block (src lines 1158-1238): verify_top, fetch the block
result, assign the out block BEFORE taking the flush lock and begin_write, then
unconfirm the txs, unindex the confirmed header, commit. -/
def DataBase.pop_block (f : Faults) (db : DataBase) (height : Nat) :
    Code × DataBase × Option Block × List Ev :=
  let ec := verify_top db.blocks height false
  if ec ≠ Code.success then (ec, db, none, []) else
  match db.blocks.getAt height false with
  | none => (Code.operation_failed, db, none, [])
  | some result =>
    let ob := blockOf db result
    if f.beginWriteFail then (Code.store_lock_failure, db, some ob, []) else
    let r1 := TxStore.unconfirmAll f.unconfirmFail db.txs (ob.txs.map Tx.link)
    if !r1.2.1 then (Code.operation_failed, {db with txs := r1.1}, some ob,
        [Ev.beginWrite] ++ r1.2.2 ++ endW f) else
    if f.unindexFail then (Code.operation_failed, {db with txs := r1.1}, some ob,
        [Ev.beginWrite] ++ r1.2.2 ++ endW f) else
    match db.blocks.unindex result.header.hhash height false with
    | none => (Code.operation_failed, {db with txs := r1.1}, some ob,
        [Ev.beginWrite] ++ r1.2.2 ++ endW f)
    | some bs1 =>
      let db2 : DataBase := {db with txs := r1.1, blocks := bs1}
      let tr := [Ev.beginWrite] ++ r1.2.2 ++ [Ev.bUnindex false, Ev.commit]
      if f.endWriteFail then (Code.store_lock_failure, db2, some ob, tr)
      else (Code.success, db2, some ob, tr ++ [Ev.endWrite])

/-- The default-constructed `message::block` the pop_above loop allocates for
each iteration's out parameter. -/
def defaultBlockV : Block := ⟨⟨⟨0, 0⟩, false, Code.success, false, 0⟩, []⟩

/-- The pop loop of data_base::pop_above for blocks: pop heights from `fork + d`
down to `fork + 1`, prepending each popped block. -/
def DataBase.popBs (f : Faults) (db : DataBase) (fork : Nat) :
    Nat → Bool × DataBase × List Block × List Ev
  | 0 => (true, db, [], [])
  | d + 1 =>
    let res := DataBase.pop_block f db (fork + d + 1)
    let blk := res.2.2.1.getD defaultBlockV
    if res.1 ≠ Code.success then (false, res.2.1, [], res.2.2.2)
    else
      let rest := DataBase.popBs f res.2.1 fork d
      (rest.1, rest.2.1, rest.2.2.1 ++ [blk], res.2.2.2 ++ rest.2.2.2)

/-- data_base::pop_above for blocks (src lines 1047-1081). -/
def DataBase.pop_above_b (f : Faults) (db : DataBase) (fork : Checkpoint) :
    Bool × DataBase × List Block × List Ev :=
  if verify_fork db.blocks fork false ≠ Code.success then (false, db, [], []) else
  match db.blocks.topIdx false with
  | none => (false, db, [], [])
  | some top =>
    if top - fork.cheight = 0 then (true, db, [], [])
    else DataBase.popBs f db fork.cheight (top - fork.cheight)

/-- data_base::push_all for blocks (src lines 1025-1045). -/
def DataBase.push_all_b (f : Faults) (db : DataBase) (fork : Nat) :
    List Block → Nat → Bool × DataBase × List Ev
  | [], _ => (true, db, [])
  | b :: rest, offset =>
    let res := DataBase.push_block f db b (fork + 1 + offset)
    if res.1 ≠ Code.success then (false, res.2.1, res.2.2)
    else
      let r2 := DataBase.push_all_b f res.2.1 fork rest (offset + 1)
      (r2.1, r2.2.1, res.2.2 ++ r2.2.2)

/-- The body of data_base::reorganize for blocks after the overflow guard. -/
def DataBase.reorgBodyB (f : Faults) (db : DataBase) (fork : Checkpoint)
    (incoming : List Block) : Code × DataBase × Option (List Block) × List Ev :=
  let pa := DataBase.pop_above_b f db fork
  if !pa.1 then (Code.operation_failed, pa.2.1, some pa.2.2.1, pa.2.2.2)
  else
    let ps := DataBase.push_all_b f pa.2.1 fork.cheight incoming 0
    ((if ps.1 then Code.success else Code.operation_failed), ps.2.1, some pa.2.2.1,
     pa.2.2.2 ++ ps.2.2)

/-- data_base::reorganize for blocks (src lines 687-704). -/
def DataBase.reorganize_b (f : Faults) (db : DataBase) (fork : Checkpoint)
    (incoming : List Block) : Code × DataBase × Option (List Block) × List Ev :=
  if fork.cheight > maxSizeT - incoming.length then (Code.operation_failed, db, none, [])
  else DataBase.reorgBodyB f db fork incoming

/-- data_base::invalidate (src lines 554-609): verify_exists, record the verdict
via `blocks.validate(hash, error)`, then set the header's metadata error and
validated flags; it never touches either height index. -/
def DataBase.invalidate (f : Faults) (db : DataBase) (h : HeaderM) (err : Code) :
    Code × DataBase × HeaderM × List Ev :=
  let ec := verify_exists_header db.blocks h.hdr
  if ec ≠ Code.success then (ec, db, h, []) else
  if f.beginWriteFail then (Code.store_lock_failure, db, h, []) else
  match db.blocks.validate h.hdr.hhash err with
  | none => (Code.operation_failed, db, h, [Ev.beginWrite] ++ endW f)
  | some bs1 =>
    let h1 : HeaderM := {h with errorCode := err, validated := true}
    if f.endWriteFail then
      (Code.store_lock_failure, {db with blocks := bs1}, h1, [Ev.beginWrite, Ev.bValidate])
    else
      (Code.success, {db with blocks := bs1}, h1,
       [Ev.beginWrite, Ev.bValidate, Ev.endWrite])

/-- data_base::close (src lines 236-256): return success immediately when
already closed; otherwise set the closed flag first, then close blocks, then
transactions, then addresses when indexed, then release the store locks. -/
def DataBase.close (db : DataBase) : Bool × DataBase × List Ev :=
  if db.closed then (true, db, [])
  else (true, {db with closed := true},
    [Ev.setClosed, Ev.bClose, Ev.tClose]
      ++ (if db.indexAddresses then [Ev.aClose] else []) ++ [Ev.storeClose])

/-- data_base::open (src lines 135-158): open blocks, then transactions, then
addresses when indexed, and clear the closed flag. -/
def DataBase.openDb (db : DataBase) : Bool × DataBase × List Ev :=
  (true, {db with closed := false},
   [Ev.bOpen, Ev.tOpen] ++ (if db.indexAddresses then [Ev.aOpen] else []))

/-- `n` sequential close() calls, collecting each result and the concatenated
event trace. -/
def DataBase.closeN (db : DataBase) : Nat → List Bool × DataBase × List Ev
  | 0 => ([], db, [])
  | n + 1 =>
    let r := db.close
    let rest := DataBase.closeN r.2.1 n
    (r.1 :: rest.1, rest.2.1, r.2.2 ++ rest.2.2)

/-- The three leaf stores, for comparing open and close orders. -/
inductive Leaf where
  | blocksLeaf | txsLeaf | addrsLeaf
  deriving DecidableEq, Repr

/-- The sequence of leaf-close events in an event trace. -/
def closeLeafSeq (tr : List Ev) : List Leaf :=
  tr.filterMap (fun e => match e with
    | Ev.bClose => some Leaf.blocksLeaf
    | Ev.tClose => some Leaf.txsLeaf
    | Ev.aClose => some Leaf.addrsLeaf
    | _ => none)

/-- The sequence of leaf-open events in an event trace. -/
def openLeafSeq (tr : List Ev) : List Leaf :=
  tr.filterMap (fun e => match e with
    | Ev.bOpen => some Leaf.blocksLeaf
    | Ev.tOpen => some Leaf.txsLeaf
    | Ev.aOpen => some Leaf.addrsLeaf
    | _ => none)

/-- Upgrade-mutex operations performed by accessor methods
(src/src/memory/accessor.cpp). -/
inductive MutexOp where
  | lockUpgrade | unlockUpgradeAndLockShared | unlockShared
  deriving DecidableEq, Repr

/-- The accessor's view of the upgrade mutex: which mode this accessor holds. -/
inductive LockState where
  | unlocked | upgradeHeld | sharedHeld
  deriving DecidableEq, Repr

/-- Legal transitions of the accessor lock state machine: construction acquires
the upgradable-shared lock, assign downgrades it to shared, destruction releases
shared.  No other transition is legal. -/
def stepLock : LockState → MutexOp → Option LockState
  | LockState.unlocked, MutexOp.lockUpgrade => some LockState.upgradeHeld
  | LockState.upgradeHeld, MutexOp.unlockUpgradeAndLockShared => some LockState.sharedHeld
  | LockState.sharedHeld, MutexOp.unlockShared => some LockState.unlocked
  | _, _ => none

/-- Run a sequence of mutex operations through the legal-transition machine;
`none` means some operation was not a legal transition. -/
def runLock : LockState → List MutexOp → Option LockState
  | s, [] => some s
  | s, op :: rest =>
    match stepLock s op with
    | none => none
    | some s1 => runLock s1 rest

/-- The mutex operations an accessor performs over its lifetime when `assign` is
called `n` times: the constructor calls `lock_upgrade`, each `assign` calls
`unlock_upgrade_and_lock_shared`, and the destructor calls `unlock_shared`
unconditionally (src/src/memory/accessor.cpp lines 29-46, 54-69, 79-107). -/
def accessorOps (n : Nat) : List MutexOp :=
  [MutexOp.lockUpgrade] ++ List.replicate n MutexOp.unlockUpgradeAndLockShared
    ++ [MutexOp.unlockShared]

/-- A one-header genesis database: header hash 100 recorded, candidate and
confirmed indices both `[100]`, no transactions, open, no address indexing. -/
def genesisHeader : Header := ⟨100, 0⟩

/-- The stored record of the genesis header. -/
def genesisRecord : BlockRecord := ⟨genesisHeader, 0, 0, [], true, Code.success⟩

/-- The genesis database state. -/
def genesisDb : DataBase :=
  ⟨⟨[(100, genesisRecord)], [100], [100]⟩, ⟨[], 0⟩, false, false⟩

/-- A fresh header on top of genesis, not yet stored (`metadata.exists = false`). -/
def hdrA : HeaderM := ⟨⟨200, 100⟩, false, Code.success, false, 0⟩

/-- A stored record for header 200 at height 1. -/
def rec200 : BlockRecord := ⟨⟨200, 100⟩, 1, 0, [], true, Code.success⟩

/-- A two-header database whose candidate index is one ahead of confirmed. -/
def db4 : DataBase :=
  ⟨⟨[(100, genesisRecord), (200, rec200)], [100, 200], [100]⟩, ⟨[], 0⟩, false, false⟩

/-- A two-block database with both indices at height 1. -/
def db5 : DataBase :=
  ⟨⟨[(100, genesisRecord), (200, rec200)], [100, 200], [100, 200]⟩, ⟨[], 0⟩, false, false⟩

/-- An empty database (no records, both indices empty). -/
def emptyDb : DataBase := ⟨⟨[], [], []⟩, ⟨[], 0⟩, false, false⟩

/-- A genesis block carrying one transaction, for exercising `push`. -/
def blk0 : Block := ⟨⟨⟨100, 0⟩, false, Code.success, false, 0⟩, [⟨77, 0, false⟩]⟩

-- Association-list lemmas.

theorem alookup_aupdate_self (k : Nat) (f : α → α) (l : List (Nat × α)) :
    alookup k (aupdate k f l) = (alookup k l).map f := by
  induction l with
  | nil => rfl
  | cons p t ih =>
      by_cases h : p.1 = k
      · simp [alookup, aupdate, h]
      · simp [alookup, aupdate, h, ih]

theorem alookup_aupdate_ne (k k' : Nat) (hne : k' ≠ k) (f : α → α)
    (l : List (Nat × α)) : alookup k' (aupdate k f l) = alookup k' l := by
  induction l with
  | nil => rfl
  | cons p t ih =>
      by_cases h : p.1 = k
      · simp [alookup, aupdate, h, Ne.symm hne, ih]
      · by_cases h2 : p.1 = k'
        · simp [alookup, aupdate, h, h2, hne]
        · simp [alookup, aupdate, h, h2, ih]

theorem alookup_snoc_of_none (k j : Nat) (v : α) (l : List (Nat × α))
    (h : alookup k l = none) :
    alookup k (l ++ [(j, v)]) = if j = k then some v else none := by
  induction l with
  | nil => rfl
  | cons p t ih =>
      by_cases hp : p.1 = k
      · simp [alookup, hp] at h
      · simp [alookup, hp] at h ⊢
        exact ih h

theorem alookup_snoc_of_some (k j : Nat) (v : α) (x : α) (l : List (Nat × α))
    (h : alookup k l = some x) : alookup k (l ++ [(j, v)]) = some x := by
  induction l with
  | nil => simp [alookup] at h
  | cons p t ih =>
      by_cases hp : p.1 = k
      · simp [alookup, hp] at h ⊢
        exact h
      · simp [alookup, hp] at h ⊢
        exact ih h

-- List index helper lemmas.

theorem getq_snoc_len (l : List α) (a : α) : (l ++ [a])[l.length]? = some a := by
  induction l with
  | nil => rfl
  | cons x t ih => simp [ih]

theorem getq_snoc_lt (l : List α) (a : α) (i : Nat) (h : i < l.length) :
    (l ++ [a])[i]? = l[i]? := by
  induction l generalizing i with
  | nil => simp at h
  | cons x t ih =>
      cases i with
      | zero => simp
      | succ j =>
          simp only [List.cons_append, List.getElem?_cons_succ]
          exact ih j (by simpa using h)

theorem dropLast_snoc (l : List α) (a : α) : (l ++ [a]).dropLast = l := by
  simp

theorem getq_dropLast (l : List α) (i : Nat) (h : i + 1 < l.length) :
    l.dropLast[i]? = l[i]? := by
  induction l generalizing i with
  | nil => simp at h
  | cons x t ih =>
      cases t with
      | nil => simp at h
      | cons y u =>
          cases i with
          | zero => simp [List.dropLast_cons₂]
          | succ j =>
              simp only [List.dropLast_cons₂, List.getElem?_cons_succ]
              exact ih j (by simpa using h)

/-- C2: with the candidate top at height 0, `pop_header(&out, 5)` fails its
`verify_top` precondition, yet the source returns the default-constructed code
`error::success` (the `ec =` assignment is missing at data_base.cpp line 955),
performing no leaf mutation, writing no sentinel, and leaving `out` unassigned.
The precondition-failure code is not returned verbatim. -/
theorem c2_pop_header_precondition_returns_success :
    verify_top genesisDb.blocks 5 true = Code.store_block_invalid_height ∧
    DataBase.pop_header noFaults genesisDb 5 = (Code.success, genesisDb, none, []) := by
  exact ⟨rfl, rfl⟩

/-- C9 counterexample: an accessor destroyed without an intervening assign
performs `lock_upgrade` then `unlock_shared`, which is not a legal run of the
construct → assign → destroy state machine (the destructor releases a shared
lock the accessor does not hold). -/
theorem c9_counterexample :
    accessorOps 0 = [MutexOp.lockUpgrade, MutexOp.unlockShared] ∧
    runLock LockState.unlocked (accessorOps 0) = none := by decide

/-- C9 (amended): an accessor's mutex transitions are exactly the legal run
construct → assign → destroy when `assign` is called exactly once; with zero
assigns (or more than one) the destructor's unconditional `unlock_shared` makes
the run illegal. -/
theorem c9_accessor_lock_transitions :
    accessorOps 1 = [MutexOp.lockUpgrade, MutexOp.unlockUpgradeAndLockShared,
      MutexOp.unlockShared] ∧
    runLock LockState.unlocked (accessorOps 1) = some LockState.unlocked ∧
    ∀ n : Nat, runLock LockState.unlocked (accessorOps n) =
      if n = 1 then some LockState.unlocked else none := by
  refine ⟨by decide, by decide, ?_⟩
  intro n
  match n with
  | 0 => decide
  | 1 => decide
  | (m + 2) => simp [accessorOps, runLock, stepLock, List.replicate_succ]

/-- C5 counterexample: with the candidate top at 0 and a fork point at height 5,
`verify` yields `invalid_fork_point` but `reorganize` surfaces
`operation_failed` (pop_above collapses the verify code into a boolean), so the
precondition code is not propagated verbatim. -/
theorem c5_counterexample :
    verify_fork genesisDb.blocks ⟨5, 0⟩ true = Code.invalid_fork_point ∧
    DataBase.reorganize_h noFaults genesisDb ⟨5, 0⟩ [] =
      (Code.operation_failed, genesisDb, some [], []) ∧
    Code.operation_failed ≠ Code.invalid_fork_point := by
  exact ⟨rfl, rfl, by decide⟩

/-- C5 (amended): whenever the fork point fails verification against the target
index (at either granularity), reorganize fails with no pop or push performed —
the state is unchanged and the event trace is empty — but the code surfaced to
the caller is `operation_failed`, not `invalid_fork_point`, because `pop_above`
collapses the verify code into its boolean result. -/
theorem c5_reorganize_bad_fork (f : Faults) (db : DataBase) (fork : Checkpoint)
    (incH : List HeaderM) (incB : List Block)
    (hgH : ¬ fork.cheight > maxSizeT - incH.length)
    (hgB : ¬ fork.cheight > maxSizeT - incB.length)
    (hvH : verify_fork db.blocks fork true ≠ Code.success)
    (hvB : verify_fork db.blocks fork false ≠ Code.success) :
    DataBase.reorganize_h f db fork incH = (Code.operation_failed, db, some [], []) ∧
    DataBase.reorganize_b f db fork incB = (Code.operation_failed, db, some [], []) := by
  constructor
  · simp [DataBase.reorganize_h, hgH, DataBase.reorgBodyH, DataBase.pop_above_h, hvH]
  · simp [DataBase.reorganize_b, hgB, DataBase.reorgBodyB, DataBase.pop_above_b, hvB]

/-- C5 witness: the amended theorem applied at a concrete bad fork point. -/
theorem c5_witness :
    DataBase.reorganize_h noFaults genesisDb ⟨5, 0⟩ [] =
      (Code.operation_failed, genesisDb, some [], []) ∧
    DataBase.reorganize_b noFaults genesisDb ⟨5, 0⟩ [] =
      (Code.operation_failed, genesisDb, some [], []) :=
  c5_reorganize_bad_fork noFaults genesisDb ⟨5, 0⟩ [] []
    (by decide) (by decide) (by decide) (by decide)

/-- C6: in exact size_t arithmetic the guard `fork.height > max_size_t -
incoming.size()` is equivalent to `fork.height + incoming.size() > max_size_t`;
when it holds, reorganize (at either granularity) returns `operation_failed`
with every store unmutated and nothing performed, and when it does not hold the
pop_above/push_all body runs. -/
theorem c6_overflow_guard (f : Faults) (db : DataBase) (fork : Checkpoint)
    (incH : List HeaderM) (incB : List Block)
    (hH : incH.length ≤ maxSizeT) (hB : incB.length ≤ maxSizeT) :
    (fork.cheight + incH.length > maxSizeT ↔ fork.cheight > maxSizeT - incH.length) ∧
    (fork.cheight + incB.length > maxSizeT ↔ fork.cheight > maxSizeT - incB.length) ∧
    (fork.cheight > maxSizeT - incH.length →
      DataBase.reorganize_h f db fork incH = (Code.operation_failed, db, none, [])) ∧
    (fork.cheight > maxSizeT - incB.length →
      DataBase.reorganize_b f db fork incB = (Code.operation_failed, db, none, [])) ∧
    (¬ fork.cheight > maxSizeT - incH.length →
      DataBase.reorganize_h f db fork incH = DataBase.reorgBodyH f db fork incH) ∧
    (¬ fork.cheight > maxSizeT - incB.length →
      DataBase.reorganize_b f db fork incB = DataBase.reorgBodyB f db fork incB) := by
  refine ⟨by omega, by omega, ?_, ?_, ?_, ?_⟩
  · intro hg
    simp [DataBase.reorganize_h, hg]
  · intro hg
    simp [DataBase.reorganize_b, hg]
  · intro hg
    simp [DataBase.reorganize_h, hg]
  · intro hg
    simp [DataBase.reorganize_b, hg]

/-- C6 witness: a fork point at `max_size_t` with one incoming element trips the
guard at both granularities. -/
theorem c6_witness :
    DataBase.reorganize_h noFaults genesisDb ⟨maxSizeT, 0⟩ [hdrA] =
      (Code.operation_failed, genesisDb, none, []) ∧
    DataBase.reorganize_b noFaults genesisDb ⟨maxSizeT, 0⟩ [defaultBlockV] =
      (Code.operation_failed, genesisDb, none, []) := by
  have h := c6_overflow_guard noFaults genesisDb ⟨maxSizeT, 0⟩ [hdrA] [defaultBlockV]
    (by decide) (by decide)
  exact ⟨h.2.2.1 (by decide), h.2.2.2.1 (by decide)⟩

/-- Once the closed flag is set, every further close() is a success no-op. -/
theorem closeN_of_closed (n : Nat) (db : DataBase) (h : db.closed = true) :
    DataBase.closeN db n = (List.replicate n true, db, []) := by
  induction n with
  | zero => simp [DataBase.closeN]
  | succ m ih => simp [DataBase.closeN, DataBase.close, h, ih, List.replicate_succ]

/-- C7 (amended): close() called n ≥ 2 times returns success on every call and
performs the leaf close exactly once; the first call sets the closed flag before
any leaf close and closes the leaves in the SAME order as opening — blocks,
transactions, then addresses — not in reverse order. -/
theorem c7_close_idempotent (db : DataBase) (n : Nat) (h2 : 2 ≤ n)
    (hc : db.closed = false) :
    (DataBase.closeN db n).1 = List.replicate n true ∧
    (DataBase.closeN db n).2.1 = {db with closed := true} ∧
    (DataBase.closeN db n).2.2 =
      [Ev.setClosed, Ev.bClose, Ev.tClose]
        ++ (if db.indexAddresses then [Ev.aClose] else []) ++ [Ev.storeClose] ∧
    (DataBase.closeN db n).2.2.count Ev.bClose = 1 ∧
    (DataBase.closeN db n).2.2.count Ev.tClose = 1 ∧
    (DataBase.closeN db n).2.2.take 1 = [Ev.setClosed] ∧
    closeLeafSeq (DataBase.closeN db n).2.2 = openLeafSeq (DataBase.openDb db).2.2 := by
  obtain ⟨m, rfl⟩ : ∃ m, n = m + 1 := ⟨n - 1, by omega⟩
  have hmain : DataBase.closeN db (m + 1) =
      (List.replicate (m + 1) true, {db with closed := true},
       [Ev.setClosed, Ev.bClose, Ev.tClose]
         ++ (if db.indexAddresses then [Ev.aClose] else []) ++ [Ev.storeClose]) := by
    simp [DataBase.closeN, DataBase.close, hc, closeN_of_closed, List.replicate_succ]
  rw [hmain]
  refine ⟨rfl, rfl, rfl, ?_, ?_, ?_, ?_⟩
  all_goals cases hia : db.indexAddresses <;>
    simp [hia, closeLeafSeq, openLeafSeq, DataBase.openDb]

/-- C7 witness: two closes of the open genesis database. -/
theorem c7_witness :
    (DataBase.closeN genesisDb 2).1 = List.replicate 2 true ∧
    closeLeafSeq (DataBase.closeN genesisDb 2).2.2 =
      openLeafSeq (DataBase.openDb genesisDb).2.2 := by
  have h := c7_close_idempotent genesisDb 2 (by decide) rfl
  exact ⟨h.1, h.2.2.2.2.2.2⟩

/-- An address-indexing database for exercising all three leaf closes. -/
def dbIA : DataBase := ⟨genesisDb.blocks, genesisDb.txs, false, true⟩

/-- C7 counterexample: with address indexing enabled, the first close() closes
the leaves as blocks, transactions, addresses — the same order as open() — and
that is not the reverse of the opening order, refuting the reverse-order part of
the claim. -/
theorem c7_counterexample :
    closeLeafSeq (DataBase.close dbIA).2.2 =
      [Leaf.blocksLeaf, Leaf.txsLeaf, Leaf.addrsLeaf] ∧
    (openLeafSeq (DataBase.openDb dbIA).2.2).reverse =
      [Leaf.addrsLeaf, Leaf.txsLeaf, Leaf.blocksLeaf] ∧
    closeLeafSeq (DataBase.close dbIA).2.2 ≠
      (openLeafSeq (DataBase.openDb dbIA).2.2).reverse := by decide

/-- C8: for a header present in the BlockStore, invalidate records the verdict
through `blocks.validate` — updating only that record's error and validated
fields — sets the header metadata to `(error, validated = true)`, and leaves
everything else unchanged: both height indices, both tops, the transaction
store, and the flags are identical before and after. -/
theorem c8_invalidate_frame (db : DataBase) (h : HeaderM) (err : Code)
    (hex : (alookup h.hdr.hhash db.blocks.table).isSome = true) :
    (DataBase.invalidate noFaults db h err).1 = Code.success ∧
    (DataBase.invalidate noFaults db h err).2.1.blocks.table =
      aupdate h.hdr.hhash (fun r => {r with errorCode := err, validated := true})
        db.blocks.table ∧
    (DataBase.invalidate noFaults db h err).2.1.blocks.cand = db.blocks.cand ∧
    (DataBase.invalidate noFaults db h err).2.1.blocks.conf = db.blocks.conf ∧
    (DataBase.invalidate noFaults db h err).2.1.blocks.topIdx true =
      db.blocks.topIdx true ∧
    (DataBase.invalidate noFaults db h err).2.1.blocks.topIdx false =
      db.blocks.topIdx false ∧
    (DataBase.invalidate noFaults db h err).2.1.txs = db.txs ∧
    (DataBase.invalidate noFaults db h err).2.1.closed = db.closed ∧
    (DataBase.invalidate noFaults db h err).2.1.indexAddresses = db.indexAddresses ∧
    (DataBase.invalidate noFaults db h err).2.2.1 =
      {h with errorCode := err, validated := true} ∧
    (DataBase.invalidate noFaults db h err).2.2.2 =
      [Ev.beginWrite, Ev.bValidate, Ev.endWrite] := by
  simp [DataBase.invalidate, verify_exists_header, hex, BlockStore.validate,
    noFaults, BlockStore.topIdx]

/-- C8 witness: invalidating the stored genesis header with a consensus error. -/
theorem c8_witness :
    (DataBase.invalidate noFaults genesisDb ⟨⟨100, 0⟩, true, Code.success, true, 0⟩
      Code.invalid_fork_point).1 = Code.success ∧
    (DataBase.invalidate noFaults genesisDb ⟨⟨100, 0⟩, true, Code.success, true, 0⟩
      Code.invalid_fork_point).2.1.blocks.topIdx false =
      genesisDb.blocks.topIdx false := by
  have h := c8_invalidate_frame genesisDb ⟨⟨100, 0⟩, true, Code.success, true, 0⟩
    Code.invalid_fork_point (by decide)
  exact ⟨h.1, h.2.2.2.2.2.1⟩

-- Structural lemmas about the modelled leaf operations.

theorem store_cand (bs : BlockStore) (hd : Header) (ht mp : Nat) :
    (bs.store hd ht mp).cand = bs.cand := by
  unfold BlockStore.store
  split <;> rfl

theorem store_conf (bs : BlockStore) (hd : Header) (ht mp : Nat) :
    (bs.store hd ht mp).conf = bs.conf := by
  unfold BlockStore.store
  split <;> rfl

theorem store_alookup_self (bs : BlockStore) (hd : Header) (ht mp : Nat) :
    alookup hd.hhash (bs.store hd ht mp).table = some (mkRecord hd ht mp) := by
  unfold BlockStore.store
  split
  case isTrue hs =>
    obtain ⟨x, hx⟩ := Option.isSome_iff_exists.mp hs
    simp [alookup_aupdate_self, hx]
  case isFalse hs =>
    have hn : alookup hd.hhash bs.table = none := by
      cases hq : alookup hd.hhash bs.table
      · rfl
      · simp [hq] at hs
    simp [alookup_snoc_of_none _ _ _ _ hn]

theorem index_true_some {bs bs' : BlockStore} {hs ht : Nat}
    (h : bs.index hs ht true = some bs') :
    bs.cand.length = ht ∧ bs' = {bs with cand := bs.cand ++ [hs]} := by
  simp only [BlockStore.index, if_true] at h
  split at h
  case isTrue hl => exact ⟨hl, (Option.some.inj h).symm⟩
  case isFalse => simp at h

theorem index_false_some {bs bs' : BlockStore} {hs ht : Nat}
    (h : bs.index hs ht false = some bs') :
    bs.conf.length = ht ∧ bs' = {bs with conf := bs.conf ++ [hs]} := by
  simp only [BlockStore.index, Bool.false_eq_true, if_false] at h
  split at h
  case isTrue hl => exact ⟨hl, (Option.some.inj h).symm⟩
  case isFalse => simp at h

theorem unindex_true_some {bs bs' : BlockStore} {hs ht : Nat}
    (h : bs.unindex hs ht true = some bs') :
    bs.cand.length = ht + 1 ∧ bs.cand[ht]? = some hs ∧
      bs' = {bs with cand := bs.cand.dropLast} := by
  simp only [BlockStore.unindex, if_true] at h
  split at h
  case isTrue hc => exact ⟨hc.1, hc.2, (Option.some.inj h).symm⟩
  case isFalse => simp at h

theorem unindex_false_some {bs bs' : BlockStore} {hs ht : Nat}
    (h : bs.unindex hs ht false = some bs') :
    bs.conf.length = ht + 1 ∧ bs.conf[ht]? = some hs ∧
      bs' = {bs with conf := bs.conf.dropLast} := by
  simp only [BlockStore.unindex, Bool.false_eq_true, if_false] at h
  split at h
  case isTrue hc => exact ⟨hc.1, hc.2, (Option.some.inj h).symm⟩
  case isFalse => simp at h

theorem validate_some {bs bs' : BlockStore} {hs : Nat} {c : Code}
    (h : bs.validate hs c = some bs') :
    bs' = {bs with table := aupdate hs (fun r => {r with errorCode := c, validated := true}) bs.table} := by
  simp only [BlockStore.validate] at h
  split at h
  case isTrue => exact (Option.some.inj h).symm
  case isFalse => simp at h

theorem update_some {bs bs' : BlockStore} {b : Block}
    (h : bs.update b = some bs') :
    bs' = {bs with table := aupdate b.header.hdr.hhash (fun r => {r with txLinks := b.txs.map Tx.link}) bs.table} := by
  simp only [BlockStore.update] at h
  split at h
  case isTrue => exact (Option.some.inj h).symm
  case isFalse => simp at h

/-- C10: `pop_block` assigns its out parameter right after the precondition and
the block fetch, BEFORE `begin_write`; hence whenever `verify_top` and the fetch
pass, the out parameter holds the popped block's contents in every outcome — in
particular a `begin_write` failure returns a non-success code with the stores
untouched and no events, yet the out parameter already overwritten. -/
theorem c10_pop_block_out_param (f : Faults) (db : DataBase) (height : Nat)
    (r : BlockRecord)
    (hv : verify_top db.blocks height false = Code.success)
    (hg : db.blocks.getAt height false = some r) :
    (DataBase.pop_block f db height).2.2.1 = some (blockOf db r) ∧
    (f.beginWriteFail = true →
      (DataBase.pop_block f db height).1 = Code.store_lock_failure ∧
      (DataBase.pop_block f db height).2.1 = db ∧
      (DataBase.pop_block f db height).2.2.2 = []) := by
  unfold DataBase.pop_block
  rw [hv, hg]
  simp only [ne_eq, not_true_eq_false, if_false]
  constructor
  · repeat' split
    all_goals rfl
  · intro hb
    simp [hb]

/-- A fault environment in which only `begin_write` fails. -/
def faultB : Faults := ⟨true, false, false, false⟩

/-- C10 witness: popping the confirmed top of a two-block database under a
`begin_write` failure returns `store_lock_failure` with out already assigned. -/
theorem c10_witness :
    (DataBase.pop_block faultB db5 1).2.2.1 = some (blockOf db5 rec200) ∧
    (DataBase.pop_block faultB db5 1).1 = Code.store_lock_failure := by
  have h := c10_pop_block_out_param faultB db5 1 rec200 (by decide) (by decide)
  exact ⟨h.1, (h.2 rfl).1⟩

/-- C1: whenever `push(B, h, mtp)` returns success, the candidate top and the
confirmed top both equal `h`, the header indexed at `h` in each index carries
hash `B.hash`, and the performed events are exactly blocks.store, candidate
blocks.index, transactions.store, blocks.update, transactions.confirm,
blocks.validate, confirmed blocks.index, then commit — in that order, inside
the begin_write/end_write bracket. -/
theorem c1_push_success (f : Faults) (db : DataBase) (b : Block) (h mtp : Nat)
    (hok : (DataBase.push f db b h mtp).1 = Code.success) :
    (DataBase.push f db b h mtp).2.1.blocks.topIdx true = some h ∧
    (DataBase.push f db b h mtp).2.1.blocks.topIdx false = some h ∧
    ((DataBase.push f db b h mtp).2.1.blocks.getAt h true).map
      (fun r => r.header.hhash) = some b.header.hdr.hhash ∧
    ((DataBase.push f db b h mtp).2.1.blocks.getAt h false).map
      (fun r => r.header.hhash) = some b.header.hdr.hhash ∧
    (DataBase.push f db b h mtp).2.2 =
      [Ev.beginWrite, Ev.bStore, Ev.bIndex true, Ev.tStore, Ev.bUpdate,
       Ev.tConfirm, Ev.bValidate, Ev.bIndex false, Ev.commit, Ev.endWrite] := by
  unfold DataBase.push at hok ⊢
  cases hbw : f.beginWriteFail
  case true => rw [hbw] at hok; simp at hok
  case false =>
  rw [hbw] at hok
  simp only [Bool.false_eq_true, if_false] at hok ⊢
  cases hidx : BlockStore.index (db.blocks.store b.header.hdr h mtp)
      b.header.hdr.hhash h true
  case none => rw [hidx] at hok; simp at hok
  case some bs2 =>
  rw [hidx] at hok
  dsimp only at hok ⊢
  obtain ⟨hlen, hbs2⟩ := index_true_some hidx
  cases hupd : bs2.update {b with txs := (db.txs.storeList b.txs).2}
  case none => rw [hupd] at hok; simp at hok
  case some bs3 =>
  rw [hupd] at hok
  dsimp only at hok ⊢
  obtain hbs3 := update_some hupd
  cases hcf : ((db.txs.storeList b.txs).1.confirmList h mtp (db.txs.storeList b.txs).2 0).2
  case false => rw [hcf] at hok; simp at hok
  case true =>
  rw [hcf] at hok
  simp only [Bool.not_true, reduceIte] at hok ⊢
  cases hval : bs3.validate b.header.hdr.hhash Code.success
  case none => rw [hval] at hok; simp at hok
  case some bs4 =>
  rw [hval] at hok
  dsimp only at hok ⊢
  obtain hbs4 := validate_some hval
  cases hidx2 : bs4.index b.header.hdr.hhash h false
  case none => rw [hidx2] at hok; simp at hok
  case some bs5 =>
  rw [hidx2] at hok
  dsimp only at hok ⊢
  obtain ⟨hclen, hbs5⟩ := index_false_some hidx2
  cases hew : f.endWriteFail
  case true => rw [hew] at hok; simp at hok
  case false =>
  simp only [Bool.false_eq_true, if_false]
  have hcand5 : bs5.cand = db.blocks.cand ++ [b.header.hdr.hhash] := by
    rw [hbs5, hbs4, hbs3, hbs2]
    simp [store_cand]
  have htab5 : bs5.table =
      aupdate b.header.hdr.hhash (fun r => {r with errorCode := Code.success, validated := true})
        (aupdate b.header.hdr.hhash (fun r => {r with txLinks := (db.txs.storeList b.txs).2.map Tx.link})
          (db.blocks.store b.header.hdr h mtp).table) := by
    rw [hbs5, hbs4, hbs3, hbs2]
  have hconf5 : bs5.conf = bs4.conf ++ [b.header.hdr.hhash] := by
    rw [hbs5]
  have hlen' : db.blocks.cand.length = h := by
    rw [← hlen, store_cand]
  have hlook : alookup b.header.hdr.hhash bs5.table =
      some {mkRecord b.header.hdr h mtp with
              txLinks := (db.txs.storeList b.txs).2.map Tx.link,
              errorCode := Code.success, validated := true} := by
    rw [htab5, alookup_aupdate_self, alookup_aupdate_self, store_alookup_self]
    rfl
  refine ⟨?_, ?_, ?_, ?_, ?_⟩
  · simp [BlockStore.topIdx, hcand5, hlen']
  · simp [BlockStore.topIdx, hconf5, hclen]
  · simp only [BlockStore.getAt, reduceIte, hcand5]
    rw [show (db.blocks.cand ++ [b.header.hdr.hhash])[h]? = some b.header.hdr.hhash from by
      rw [← hlen']
      exact getq_snoc_len _ _]
    dsimp only
    rw [hlook]
    rfl
  · simp only [BlockStore.getAt, Bool.false_eq_true, if_false, hconf5]
    rw [show (bs4.conf ++ [b.header.hdr.hhash])[h]? = some b.header.hdr.hhash from by
      rw [← hclen]
      exact getq_snoc_len _ _]
    dsimp only
    rw [hlook]
    rfl
  · trivial

/-- C1 witness: pushing a genesis block with one transaction into the empty
database succeeds and instantiates the conclusion. -/
theorem c1_witness :
    (DataBase.push noFaults emptyDb blk0 0 0).2.1.blocks.topIdx true = some 0 ∧
    (DataBase.push noFaults emptyDb blk0 0 0).2.1.blocks.topIdx false = some 0 ∧
    ((DataBase.push noFaults emptyDb blk0 0 0).2.1.blocks.getAt 0 true).map
      (fun r => r.header.hhash) = some blk0.header.hdr.hhash ∧
    ((DataBase.push noFaults emptyDb blk0 0 0).2.1.blocks.getAt 0 false).map
      (fun r => r.header.hhash) = some blk0.header.hdr.hhash ∧
    (DataBase.push noFaults emptyDb blk0 0 0).2.2 =
      [Ev.beginWrite, Ev.bStore, Ev.bIndex true, Ev.tStore, Ev.bUpdate,
       Ev.tConfirm, Ev.bValidate, Ev.bIndex false, Ev.commit, Ev.endWrite] :=
  c1_push_success noFaults emptyDb blk0 0 0 (by decide)

/-- C3 counterexample: pushing the fresh header `hdrA` (metadata.exists = false)
on top of genesis and popping it back succeeds and returns the header, but the
BlockStore is NOT byte-identical to the pre-push state: the stored header
record remains in the block table after the pop. -/
theorem c3_counterexample :
    (DataBase.push_header noFaults genesisDb hdrA 1 7).1 = Code.success ∧
    (DataBase.pop_header noFaults
      (DataBase.push_header noFaults genesisDb hdrA 1 7).2.1 1).1 = Code.success ∧
    (DataBase.pop_header noFaults
      (DataBase.push_header noFaults genesisDb hdrA 1 7).2.1 1).2.2.1 = some hdrA.hdr ∧
    (DataBase.pop_header noFaults
      (DataBase.push_header noFaults genesisDb hdrA 1 7).2.1 1).2.1.blocks ≠
      genesisDb.blocks := by
  decide

/-- C3 (amended): after a successful `push_header(H, h, mtp)`, `pop_header(&out,
h)` succeeds, returns `out = H`, and restores the candidate index, the confirmed
index and the transaction store to their pre-push values; the whole BlockStore
is byte-identical exactly when `H.metadata.exists` was true (the existing record
was reused) — when the header was newly stored, the block table retains the new
record, so the state is not byte-identical.  (Hypotheses: the `exists` metadata
is populated truthfully, and an existing record carries the same header with an
empty association array, as `push_header` expects.) -/
theorem c3_push_pop_header_roundtrip (db : DataBase) (H : HeaderM) (h mtp : Nat)
    (hhonT : H.existsFlag = true → ∃ r, alookup H.hdr.hhash db.blocks.table = some r ∧
      r.header = H.hdr ∧ r.txLinks = [])
    (hhonF : H.existsFlag = false → alookup H.hdr.hhash db.blocks.table = none)
    (hpush : (DataBase.push_header noFaults db H h mtp).1 = Code.success) :
    (DataBase.pop_header noFaults
      (DataBase.push_header noFaults db H h mtp).2.1 h).1 = Code.success ∧
    (DataBase.pop_header noFaults
      (DataBase.push_header noFaults db H h mtp).2.1 h).2.2.1 = some H.hdr ∧
    (DataBase.pop_header noFaults
      (DataBase.push_header noFaults db H h mtp).2.1 h).2.1.blocks.cand =
      db.blocks.cand ∧
    (DataBase.pop_header noFaults
      (DataBase.push_header noFaults db H h mtp).2.1 h).2.1.blocks.conf =
      db.blocks.conf ∧
    (DataBase.pop_header noFaults
      (DataBase.push_header noFaults db H h mtp).2.1 h).2.1.txs = db.txs ∧
    (H.existsFlag = true →
      (DataBase.pop_header noFaults
        (DataBase.push_header noFaults db H h mtp).2.1 h).2.1 = db) ∧
    (H.existsFlag = false →
      (DataBase.pop_header noFaults
        (DataBase.push_header noFaults db H h mtp).2.1 h).2.1.blocks.table =
        db.blocks.table ++ [(H.hdr.hhash, mkRecord H.hdr h mtp)] ∧
      (DataBase.pop_header noFaults
        (DataBase.push_header noFaults db H h mtp).2.1 h).2.1.blocks ≠ db.blocks) := by
  have hv : verify_push_header db.blocks H h = Code.success := by
    by_contra hne
    simp [DataBase.push_header, hne] at hpush
  have hlen : db.blocks.cand.length = h := by
    by_contra hne
    simp [verify_push_header, hne] at hv
  cases hex : H.existsFlag
  case true =>
    obtain ⟨r, hr, hrh, hrl⟩ := hhonT hex
    have hdb1 : (DataBase.push_header noFaults db H h mtp).2.1 =
        ⟨⟨db.blocks.table, db.blocks.cand ++ [H.hdr.hhash], db.blocks.conf⟩,
         db.txs, db.closed, db.indexAddresses⟩ := by
      simp [DataBase.push_header, hv, hex, BlockStore.index, hlen, noFaults]
    rw [hdb1]
    have hpop : DataBase.pop_header noFaults
        ⟨⟨db.blocks.table, db.blocks.cand ++ [H.hdr.hhash], db.blocks.conf⟩,
         db.txs, db.closed, db.indexAddresses⟩ h =
        (Code.success, db, some H.hdr,
         [Ev.beginWrite, Ev.bUnindex true, Ev.commit, Ev.endWrite]) := by
      have hget : (db.blocks.cand ++ [H.hdr.hhash])[h]? = some H.hdr.hhash := by
        rw [← hlen]
        exact getq_snoc_len _ _
      simp [DataBase.pop_header, verify_top, BlockStore.topIdx, BlockStore.getAt,
        hget, hr, hrh, hrl, TxStore.uncandidateAll, BlockStore.unindex,
        dropLast_snoc, noFaults, hlen]
    rw [hpop]
    exact ⟨rfl, rfl, rfl, rfl, rfl, fun _ => rfl, fun hfx => absurd hfx (by decide)⟩
  case false =>
    have hnone := hhonF hex
    have hdb1 : (DataBase.push_header noFaults db H h mtp).2.1 =
        ⟨⟨db.blocks.table ++ [(H.hdr.hhash, mkRecord H.hdr h mtp)],
          db.blocks.cand ++ [H.hdr.hhash], db.blocks.conf⟩,
         db.txs, db.closed, db.indexAddresses⟩ := by
      simp [DataBase.push_header, hv, hex, BlockStore.index, BlockStore.store,
        hlen, hnone, noFaults]
    rw [hdb1]
    have hpop : DataBase.pop_header noFaults
        ⟨⟨db.blocks.table ++ [(H.hdr.hhash, mkRecord H.hdr h mtp)],
          db.blocks.cand ++ [H.hdr.hhash], db.blocks.conf⟩,
         db.txs, db.closed, db.indexAddresses⟩ h =
        (Code.success,
         ⟨⟨db.blocks.table ++ [(H.hdr.hhash, mkRecord H.hdr h mtp)],
           db.blocks.cand, db.blocks.conf⟩, db.txs, db.closed, db.indexAddresses⟩,
         some H.hdr,
         [Ev.beginWrite, Ev.bUnindex true, Ev.commit, Ev.endWrite]) := by
      have hget : (db.blocks.cand ++ [H.hdr.hhash])[h]? = some H.hdr.hhash := by
        rw [← hlen]
        exact getq_snoc_len _ _
      have hlook : alookup H.hdr.hhash
          (db.blocks.table ++ [(H.hdr.hhash, mkRecord H.hdr h mtp)]) =
          some (mkRecord H.hdr h mtp) := by
        rw [alookup_snoc_of_none _ _ _ _ hnone]
        simp
      simp [DataBase.pop_header, verify_top, BlockStore.topIdx, BlockStore.getAt,
        hget, hlook, TxStore.uncandidateAll, BlockStore.unindex,
        dropLast_snoc, noFaults, hlen,
        (show (mkRecord H.hdr h mtp).txLinks = [] from rfl),
        (show (mkRecord H.hdr h mtp).header = H.hdr from rfl)]
    rw [hpop]
    refine ⟨rfl, rfl, rfl, rfl, rfl, fun htx => absurd htx (by decide), fun _ => ⟨rfl, ?_⟩⟩
    intro heq
    have hlenq := congrArg (fun bs => bs.table.length) heq
    simp at hlenq

/-- C3 witness: the amended theorem at the concrete fresh header `hdrA` pushed
onto genesis at height 1. -/
theorem c3_witness :
    (DataBase.pop_header noFaults
      (DataBase.push_header noFaults genesisDb hdrA 1 7).2.1 1).1 = Code.success ∧
    (DataBase.pop_header noFaults
      (DataBase.push_header noFaults genesisDb hdrA 1 7).2.1 1).2.2.1 =
      some hdrA.hdr ∧
    (DataBase.pop_header noFaults
      (DataBase.push_header noFaults genesisDb hdrA 1 7).2.1 1).2.1.blocks.cand =
      genesisDb.blocks.cand := by
  have h := c3_push_pop_header_roundtrip genesisDb hdrA 1 7
    (by intro hx; cases hx) (fun _ => by decide) (by decide)
  exact ⟨h.1, h.2.1, h.2.2.1⟩

/-- Structure of a genuinely successful `pop_header` at the candidate top: the
record at the top is fetched, its header is returned, the candidate index loses
its top entry, and the block table and confirmed index are untouched. -/
theorem pop_header_ok (f : Faults) (db : DataBase) (h : Nat)
    (hlen : db.blocks.cand.length = h + 1)
    (hok : (DataBase.pop_header f db h).1 = Code.success) :
    ∃ r, db.blocks.getAt h true = some r ∧
      (DataBase.pop_header f db h).2.2.1 = some r.header ∧
      (DataBase.pop_header f db h).2.1.blocks.cand = db.blocks.cand.dropLast ∧
      (DataBase.pop_header f db h).2.1.blocks.table = db.blocks.table ∧
      (DataBase.pop_header f db h).2.1.blocks.conf = db.blocks.conf := by
  have hvt : verify_top db.blocks h true = Code.success := by
    simp [verify_top, BlockStore.topIdx, hlen]
  unfold DataBase.pop_header at hok ⊢
  rw [hvt] at hok ⊢
  rw [if_neg (show ¬(Code.success ≠ Code.success) by simp)] at hok ⊢
  cases hget : db.blocks.getAt h true
  case none => rw [hget] at hok; simp at hok
  case some r =>
  rw [hget] at hok
  dsimp only at hok ⊢
  cases hbw : f.beginWriteFail
  case true => rw [hbw] at hok; simp at hok
  case false =>
  rw [hbw] at hok
  simp only [Bool.false_eq_true, if_false] at hok ⊢
  cases hua : (db.txs.uncandidateAll r.txLinks).2.1
  case false => rw [hua] at hok; simp at hok
  case true =>
  rw [hua] at hok
  simp only [Bool.not_true, Bool.false_eq_true, if_false] at hok ⊢
  cases huf : f.unindexFail
  case true => rw [huf] at hok; simp at hok
  case false =>
  rw [huf] at hok
  simp only [Bool.false_eq_true, if_false] at hok ⊢
  cases hui : db.blocks.unindex r.header.hhash h true
  case none => rw [hui] at hok; simp at hok
  case some bs1 =>
  rw [hui] at hok
  dsimp only at hok ⊢
  obtain ⟨-, -, hbs1⟩ := unindex_true_some hui
  cases hew : f.endWriteFail
  case true => rw [hew] at hok; simp at hok
  case false =>
  simp only [Bool.false_eq_true, if_false]
  exact ⟨r, rfl, rfl, by rw [hbs1], by rw [hbs1], by rw [hbs1]⟩

/-- The pop loop of `pop_above` (headers): starting with the candidate index at
length `fork + d + 1`, a successful run pops exactly `d` headers, returns them in
ascending height order (element `i` is the pre-state header at `fork + 1 + i`),
truncates the candidate index to the fork, and touches neither the block table
nor the confirmed index. -/
theorem popHs_ok (f : Faults) (fork : Nat) :
    ∀ (d : Nat) (db : DataBase),
      db.blocks.cand.length = fork + d + 1 →
      (DataBase.popHs f db fork d).1 = true →
      (DataBase.popHs f db fork d).2.2.1.length = d ∧
      (∀ i, i < d → (DataBase.popHs f db fork d).2.2.1[i]? =
        (db.blocks.getAt (fork + 1 + i) true).map BlockRecord.header) ∧
      (DataBase.popHs f db fork d).2.1.blocks.cand = db.blocks.cand.take (fork + 1) ∧
      (DataBase.popHs f db fork d).2.1.blocks.table = db.blocks.table ∧
      (DataBase.popHs f db fork d).2.1.blocks.conf = db.blocks.conf := by
  intro d
  induction d with
  | zero =>
      intro db hlen hok
      refine ⟨rfl, ?_, ?_, rfl, rfl⟩
      · intro i hi
        exact absurd hi (by omega)
      · show db.blocks.cand = db.blocks.cand.take (fork + 1)
        exact (List.take_of_length_le (by omega)).symm
  | succ d ih =>
      intro db hlen hok
      simp only [DataBase.popHs] at hok ⊢
      by_cases hres : (DataBase.pop_header f db (fork + d + 1)).1 = Code.success
      case neg =>
        rw [if_pos hres] at hok
        dsimp only at hok
        simp at hok
      case pos =>
      rw [if_neg (not_not.mpr hres)] at hok ⊢
      dsimp only at hok ⊢
      obtain ⟨r, hget, hout, hcand, htab, hconf⟩ :=
        pop_header_ok f db (fork + d + 1) (by omega) hres
      have hlen1 : (DataBase.pop_header f db (fork + d + 1)).2.1.blocks.cand.length =
          fork + d + 1 := by
        rw [hcand, List.length_dropLast, hlen]
        omega
      obtain ⟨hrl, hre, hrc, hrt, hrf⟩ :=
        ih ((DataBase.pop_header f db (fork + d + 1)).2.1) hlen1 hok
      refine ⟨?_, ?_, ?_, ?_, ?_⟩
      · simp [hrl]
      · intro i hi
        by_cases hid : i < d
        · rw [getq_snoc_lt _ _ _ (by rw [hrl]; exact hid)]
          rw [hre i hid]
          simp only [BlockStore.getAt, reduceIte, hcand, htab]
          rw [getq_dropLast _ _ (by rw [hlen]; omega)]
        · have hieq : i = d := by omega
          rw [hieq]
          have hsn := getq_snoc_len
            (DataBase.popHs f (DataBase.pop_header f db (fork + d + 1)).2.1 fork d).2.2.1
            ((DataBase.pop_header f db (fork + d + 1)).2.2.1.getD defaultHeaderV)
          rw [hrl] at hsn
          rw [hsn, hout]
          rw [show fork + 1 + d = fork + d + 1 from by omega, hget]
          rfl
      · rw [hrc, hcand, List.dropLast_eq_take, List.take_take]
        congr 1
        rw [hlen]
        omega
      · rw [hrt, htab]
      · rw [hrf, hconf]

/-- A candidate `topIdx = some t` fact pins the candidate length to `t + 1`. -/
theorem topIdx_true_length {bs : BlockStore} {t : Nat}
    (h : bs.topIdx true = some t) : bs.cand.length = t + 1 := by
  by_cases h0 : bs.cand.length = 0
  · simp [BlockStore.topIdx, h0] at h
  · simp [BlockStore.topIdx, h0] at h
    omega

/-- A confirmed `topIdx = some t` fact pins the confirmed length to `t + 1`. -/
theorem topIdx_false_length {bs : BlockStore} {t : Nat}
    (h : bs.topIdx false = some t) : bs.conf.length = t + 1 := by
  by_cases h0 : bs.conf.length = 0
  · simp [BlockStore.topIdx, h0] at h
  · simp [BlockStore.topIdx, h0] at h
    omega

/-- pop_above (headers): a successful call with candidate top `t` and fork
height `fk ≤ t` returns exactly `t - fk` headers in ascending height order —
element `i` is the header indexed at `fk + 1 + i` before the call — and a
fork at the top pops nothing and leaves the state unchanged. -/
theorem pop_above_h_spec (f : Faults) (db : DataBase) (fork : Checkpoint) (t : Nat)
    (htop : db.blocks.topIdx true = some t)
    (hok : (DataBase.pop_above_h f db fork).1 = true) :
    fork.cheight ≤ t ∧
    (DataBase.pop_above_h f db fork).2.2.1.length = t - fork.cheight ∧
    (∀ i, i < t - fork.cheight → (DataBase.pop_above_h f db fork).2.2.1[i]? =
      (db.blocks.getAt (fork.cheight + 1 + i) true).map BlockRecord.header) ∧
    (t = fork.cheight →
      (DataBase.pop_above_h f db fork).2.2.1 = [] ∧
      (DataBase.pop_above_h f db fork).2.1 = db) := by
  have hlen : db.blocks.cand.length = t + 1 := topIdx_true_length htop
  unfold DataBase.pop_above_h at hok ⊢
  by_cases hv : verify_fork db.blocks fork true = Code.success
  case neg =>
    rw [if_pos (by simpa using hv)] at hok
    simp at hok
  case pos =>
  rw [if_neg (not_not.mpr hv)] at hok ⊢
  rw [htop] at hok ⊢
  dsimp only at hok ⊢
  have hforklt : fork.cheight < db.blocks.cand.length := by
    by_contra hge
    have hnone : db.blocks.cand[fork.cheight]? = none :=
      List.getElem?_eq_none (by omega)
    simp [verify_fork, BlockStore.getAt, hnone] at hv
  cases hdep : t - fork.cheight
  case zero =>
    rw [hdep] at hok
    rw [if_pos rfl] at hok ⊢
    exact ⟨by omega, rfl, fun i hi => absurd hi (by omega), fun _ => ⟨rfl, rfl⟩⟩
  case succ d =>
    rw [hdep] at hok
    rw [if_neg (by omega : ¬ d + 1 = 0)] at hok ⊢
    obtain ⟨hl, he, _, _, _⟩ := popHs_ok f fork.cheight (d + 1) db (by omega) hok
    exact ⟨by omega, hl, he, fun habs => absurd hdep (by omega)⟩

-- Transaction-hash preservation across unconfirm, for the block-side loop.

theorem unconfirm_thash {ts ts' : TxStore} {l : Nat}
    (h : ts.unconfirm l = some ts') :
    ∀ k, (alookup k ts'.table).map TxRecord.thash =
      (alookup k ts.table).map TxRecord.thash := by
  simp only [TxStore.unconfirm] at h
  split at h
  case isTrue =>
    obtain rfl := (Option.some.inj h).symm
    intro k
    by_cases hk : k = l
    · subst hk
      dsimp only
      rw [alookup_aupdate_self]
      cases alookup k ts.table <;> rfl
    · dsimp only
      rw [alookup_aupdate_ne _ _ hk]
  case isFalse => simp at h

theorem unconfirmAll_thash :
    ∀ (links : List Nat) (ff : Bool) (ts : TxStore) (k : Nat),
      (alookup k ((TxStore.unconfirmAll ff ts links).1).table).map TxRecord.thash =
      (alookup k ts.table).map TxRecord.thash := by
  intro links
  induction links with
  | nil => intro ff ts k; rfl
  | cons l rest ih =>
      intro ff ts k
      simp only [TxStore.unconfirmAll]
      cases ff
      case true => rfl
      case false =>
      cases hu : ts.unconfirm l
      case none => simp
      case some ts1 =>
        simp only [Bool.false_eq_true, if_false]
        rw [ih false ts1 k, unconfirm_thash hu]

theorem toTxs_congr {ts ts' : TxStore}
    (h : ∀ k, (alookup k ts'.table).map TxRecord.thash =
      (alookup k ts.table).map TxRecord.thash)
    (links : List Nat) : ts'.toTxs links = ts.toTxs links := by
  unfold TxStore.toTxs
  apply List.map_congr_left
  intro l _
  rw [h l]

/-- Structure of a successful `pop_block` at the confirmed top: the record at
the top is fetched, the out block (stored header plus hydrated transactions) is
returned, the confirmed index loses its top, the candidate index and block table
are untouched, and the hydrated view of every record is preserved. -/
theorem pop_block_ok (f : Faults) (db : DataBase) (h : Nat)
    (hlen : db.blocks.conf.length = h + 1)
    (hok : (DataBase.pop_block f db h).1 = Code.success) :
    ∃ r, db.blocks.getAt h false = some r ∧
      (DataBase.pop_block f db h).2.2.1 = some (blockOf db r) ∧
      (DataBase.pop_block f db h).2.1.blocks.conf = db.blocks.conf.dropLast ∧
      (DataBase.pop_block f db h).2.1.blocks.cand = db.blocks.cand ∧
      (DataBase.pop_block f db h).2.1.blocks.table = db.blocks.table ∧
      (∀ r' : BlockRecord, blockOf (DataBase.pop_block f db h).2.1 r' = blockOf db r') := by
  have hvt : verify_top db.blocks h false = Code.success := by
    simp [verify_top, BlockStore.topIdx, hlen]
  unfold DataBase.pop_block at hok ⊢
  rw [hvt] at hok ⊢
  rw [if_neg (show ¬(Code.success ≠ Code.success) by simp)] at hok ⊢
  cases hget : db.blocks.getAt h false
  case none => rw [hget] at hok; simp at hok
  case some r =>
  rw [hget] at hok
  dsimp only at hok ⊢
  cases hbw : f.beginWriteFail
  case true => rw [hbw] at hok; simp at hok
  case false =>
  rw [hbw] at hok
  simp only [Bool.false_eq_true, if_false] at hok ⊢
  cases hua : (TxStore.unconfirmAll f.unconfirmFail db.txs
      ((blockOf db r).txs.map Tx.link)).2.1
  case false => rw [hua] at hok; simp at hok
  case true =>
  rw [hua] at hok
  simp only [Bool.not_true, Bool.false_eq_true, if_false] at hok ⊢
  cases huf : f.unindexFail
  case true => rw [huf] at hok; simp at hok
  case false =>
  rw [huf] at hok
  simp only [Bool.false_eq_true, if_false] at hok ⊢
  cases hui : db.blocks.unindex r.header.hhash h false
  case none => rw [hui] at hok; simp at hok
  case some bs1 =>
  rw [hui] at hok
  dsimp only at hok ⊢
  obtain ⟨-, -, hbs1⟩ := unindex_false_some hui
  cases hew : f.endWriteFail
  case true => rw [hew] at hok; simp at hok
  case false =>
  simp only [Bool.false_eq_true, if_false]
  refine ⟨r, rfl, rfl, by rw [hbs1], by rw [hbs1], by rw [hbs1], ?_⟩
  intro r'
  unfold blockOf
  dsimp only
  rw [toTxs_congr (unconfirmAll_thash _ f.unconfirmFail db.txs) r'.txLinks]

/-- The pop loop of `pop_above` (blocks): starting with the confirmed index at
length `fork + d + 1`, a successful run pops exactly `d` blocks, returns them in
ascending height order (element `i` is the pre-state block at `fork + 1 + i`),
truncates the confirmed index to the fork, and touches neither the block table
nor the candidate index. -/
theorem popBs_ok (f : Faults) (fork : Nat) :
    ∀ (d : Nat) (db : DataBase),
      db.blocks.conf.length = fork + d + 1 →
      (DataBase.popBs f db fork d).1 = true →
      (DataBase.popBs f db fork d).2.2.1.length = d ∧
      (∀ i, i < d → (DataBase.popBs f db fork d).2.2.1[i]? =
        (db.blocks.getAt (fork + 1 + i) false).map (blockOf db)) ∧
      (DataBase.popBs f db fork d).2.1.blocks.conf = db.blocks.conf.take (fork + 1) ∧
      (DataBase.popBs f db fork d).2.1.blocks.cand = db.blocks.cand ∧
      (DataBase.popBs f db fork d).2.1.blocks.table = db.blocks.table := by
  intro d
  induction d with
  | zero =>
      intro db hlen hok
      refine ⟨rfl, ?_, ?_, rfl, rfl⟩
      · intro i hi
        exact absurd hi (by omega)
      · show db.blocks.conf = db.blocks.conf.take (fork + 1)
        exact (List.take_of_length_le (by omega)).symm
  | succ d ih =>
      intro db hlen hok
      simp only [DataBase.popBs] at hok ⊢
      by_cases hres : (DataBase.pop_block f db (fork + d + 1)).1 = Code.success
      case neg =>
        rw [if_pos hres] at hok
        dsimp only at hok
        simp at hok
      case pos =>
      rw [if_neg (not_not.mpr hres)] at hok ⊢
      dsimp only at hok ⊢
      obtain ⟨r, hget, hout, hconf, hcand, htab, hbof⟩ :=
        pop_block_ok f db (fork + d + 1) (by omega) hres
      have hlen1 : (DataBase.pop_block f db (fork + d + 1)).2.1.blocks.conf.length =
          fork + d + 1 := by
        rw [hconf, List.length_dropLast, hlen]
        omega
      obtain ⟨hrl, hre, hrc, hrcand, hrt⟩ :=
        ih ((DataBase.pop_block f db (fork + d + 1)).2.1) hlen1 hok
      refine ⟨?_, ?_, ?_, ?_, ?_⟩
      · simp [hrl]
      · intro i hi
        by_cases hid : i < d
        · rw [getq_snoc_lt _ _ _ (by rw [hrl]; exact hid)]
          rw [hre i hid]
          rw [show blockOf (DataBase.pop_block f db (fork + d + 1)).2.1 = blockOf db from
            funext hbof]
          simp only [BlockStore.getAt, Bool.false_eq_true, if_false, hconf, htab]
          rw [getq_dropLast _ _ (by rw [hlen]; omega)]
        · have hieq : i = d := by omega
          rw [hieq]
          have hsn := getq_snoc_len
            (DataBase.popBs f (DataBase.pop_block f db (fork + d + 1)).2.1 fork d).2.2.1
            ((DataBase.pop_block f db (fork + d + 1)).2.2.1.getD defaultBlockV)
          rw [hrl] at hsn
          rw [hsn, hout]
          rw [show fork + 1 + d = fork + d + 1 from by omega, hget]
          rfl
      · rw [hrc, hconf, List.dropLast_eq_take, List.take_take]
        congr 1
        rw [hlen]
        omega
      · rw [hrcand, hcand]
      · rw [hrt, htab]

/-- pop_above (blocks): a successful call with confirmed top `t` and fork
height `fk ≤ t` returns exactly `t - fk` blocks in ascending height order —
element `i` is the block indexed at `fk + 1 + i` before the call — and a fork at
the top pops nothing and leaves the state unchanged. -/
theorem pop_above_b_spec (f : Faults) (db : DataBase) (fork : Checkpoint) (t : Nat)
    (htop : db.blocks.topIdx false = some t)
    (hok : (DataBase.pop_above_b f db fork).1 = true) :
    fork.cheight ≤ t ∧
    (DataBase.pop_above_b f db fork).2.2.1.length = t - fork.cheight ∧
    (∀ i, i < t - fork.cheight → (DataBase.pop_above_b f db fork).2.2.1[i]? =
      (db.blocks.getAt (fork.cheight + 1 + i) false).map (blockOf db)) ∧
    (t = fork.cheight →
      (DataBase.pop_above_b f db fork).2.2.1 = [] ∧
      (DataBase.pop_above_b f db fork).2.1 = db) := by
  have hlen : db.blocks.conf.length = t + 1 := topIdx_false_length htop
  unfold DataBase.pop_above_b at hok ⊢
  by_cases hv : verify_fork db.blocks fork false = Code.success
  case neg =>
    rw [if_pos (by simpa using hv)] at hok
    simp at hok
  case pos =>
  rw [if_neg (not_not.mpr hv)] at hok ⊢
  rw [htop] at hok ⊢
  dsimp only at hok ⊢
  have hforklt : fork.cheight < db.blocks.conf.length := by
    by_contra hge
    have hnone : db.blocks.conf[fork.cheight]? = none :=
      List.getElem?_eq_none (by omega)
    simp [verify_fork, BlockStore.getAt, hnone] at hv
  cases hdep : t - fork.cheight
  case zero =>
    rw [hdep] at hok
    rw [if_pos rfl] at hok ⊢
    exact ⟨by omega, rfl, fun i hi => absurd hi (by omega), fun _ => ⟨rfl, rfl⟩⟩
  case succ d =>
    rw [hdep] at hok
    rw [if_neg (by omega : ¬ d + 1 = 0)] at hok ⊢
    obtain ⟨hl, he, _, _, _⟩ := popBs_ok f fork.cheight (d + 1) db (by omega) hok
    exact ⟨by omega, hl, he, fun habs => absurd hdep (by omega)⟩

/-- C4: for every successful pop_above call — at header or block granularity —
with target-index top `t` and fork height `fk ≤ t`, the outgoing list has
exactly `t - fk` elements in ascending height order: element `i` (0-based) is
the header/block that was indexed at height `fk + 1 + i` before the call; when
`t = fk` the outgoing list is empty and pop_above succeeds without popping. -/
theorem c4_pop_above_ascending :
    (∀ (f : Faults) (db : DataBase) (fork : Checkpoint) (t : Nat),
      db.blocks.topIdx true = some t →
      (DataBase.pop_above_h f db fork).1 = true →
      fork.cheight ≤ t ∧
      (DataBase.pop_above_h f db fork).2.2.1.length = t - fork.cheight ∧
      (∀ i, i < t - fork.cheight → (DataBase.pop_above_h f db fork).2.2.1[i]? =
        (db.blocks.getAt (fork.cheight + 1 + i) true).map BlockRecord.header) ∧
      (t = fork.cheight → (DataBase.pop_above_h f db fork).2.2.1 = [] ∧
        (DataBase.pop_above_h f db fork).2.1 = db)) ∧
    (∀ (f : Faults) (db : DataBase) (fork : Checkpoint) (t : Nat),
      db.blocks.topIdx false = some t →
      (DataBase.pop_above_b f db fork).1 = true →
      fork.cheight ≤ t ∧
      (DataBase.pop_above_b f db fork).2.2.1.length = t - fork.cheight ∧
      (∀ i, i < t - fork.cheight → (DataBase.pop_above_b f db fork).2.2.1[i]? =
        (db.blocks.getAt (fork.cheight + 1 + i) false).map (blockOf db)) ∧
      (t = fork.cheight → (DataBase.pop_above_b f db fork).2.2.1 = [] ∧
        (DataBase.pop_above_b f db fork).2.1 = db)) :=
  ⟨pop_above_h_spec, pop_above_b_spec⟩

/-- C4 witness: popping above a genesis fork point on a two-entry candidate
index (headers) and a two-entry confirmed index (blocks). -/
theorem c4_witness :
    (DataBase.pop_above_h noFaults db4 ⟨0, 100⟩).2.2.1.length = 1 - 0 ∧
    (DataBase.pop_above_h noFaults db4 ⟨0, 100⟩).2.2.1[0]? =
      (db4.blocks.getAt (0 + 1 + 0) true).map BlockRecord.header ∧
    (DataBase.pop_above_b noFaults db5 ⟨0, 100⟩).2.2.1.length = 1 - 0 := by
  have h1 := c4_pop_above_ascending.1 noFaults db4 ⟨0, 100⟩ 1 (by decide) (by decide)
  have h2 := c4_pop_above_ascending.2 noFaults db5 ⟨0, 100⟩ 1 (by decide) (by decide)
  exact ⟨h1.2.1, h1.2.2.1 0 (by decide), h2.2.1⟩

end Bitcoin
